import Mathlib

/-!
Verification of the keypoint-matching / RANSAC core of
`assignment4/solution.py` (descriptor matching with a ratio test,
geometric consensus filtering, homography projection, RANSAC homography
estimation).

Embedding conventions:
* Python floats are modelled as exact rationals `ℚ`.
* `math.acos` is an external C-library function; it is modelled as an
  abstract parameter `ac : ℚ → ℚ` (the value the float library returns on
  an in-domain argument), wrapped by `macos`, which makes the documented
  domain failure (`ValueError` for arguments outside `[-1, 1]`) explicit
  as `Option.none`.
* A Python exception aborting a call is modelled as the whole function
  returning `Option.none`; all failure paths propagate.
* `cv2.findHomography` is an external collaborator; it is modelled as a
  parameter of type `Solver` (see below).
* `random.sample` results are injected as explicit arguments (the draws);
  the error it raises when more samples are requested than exist is kept
  as an explicit length test at the call site that performs the draw.
* Python's `sorted` is a stable sort; a stable sort's output is uniquely
  determined by the comparisons, so Mathlib's (stable) `insertionSort`
  over the same key ordering is an exact model of it.
-/

attribute [local semireducible] Rat.add Rat.sub Rat.mul Rat.inv

/-- A descriptor row: a vector of rationals (the code never checks the
128-dimension claim, it just takes dot products). -/
abbrev Desc := List ℚ

/-- `np.dot` of two equal-length 1-D vectors. -/
def dotQ (a b : Desc) : ℚ :=
  (a.zip b).foldl (fun s p => s + p.1 * p.2) 0

/-- `math.acos` applied to a rational: raises (returns `none`) outside
`[-1, 1]`, otherwise returns the library value `ac x`. -/
def macos (ac : ℚ → ℚ) (x : ℚ) : Option ℚ :=
  if x < -1 ∨ 1 < x then none else some (ac x)

/-- Key ordering used by `sorted(enumerate(descriptors2), key=...)`:
compare the attached angular-distance keys. -/
def keyLe (a b : (Nat × Desc) × ℚ) : Prop := a.2 ≤ b.2

instance : DecidableRel keyLe := fun a b => inferInstanceAs (Decidable (a.2 ≤ b.2))

instance : IsTotal ((Nat × Desc) × ℚ) keyLe := ⟨fun a b => le_total a.2 b.2⟩

instance : IsTrans ((Nat × Desc) × ℚ) keyLe := ⟨fun _ _ _ h h2 => le_trans h h2⟩

/-- Attach the sort key `acos(dot(d, ·))` to every `(index, descriptor)`
pair of `enumerate(descriptors2)`; any domain error aborts (`sorted`
evaluates the key on every element). -/
def rowKeys (ac : ℚ → ℚ) (d : Desc) : List (Nat × Desc) → Option (List ((Nat × Desc) × ℚ))
  | [] => some []
  | p :: rest =>
    match macos ac (dotQ d p.2), rowKeys ac d rest with
    | some v, some ks => some ((p, v) :: ks)
    | _, _ => none

/-- One iteration of the `for i in range(len(descriptors1))` loop body of
`FindBestMatches`: sort `enumerate(descriptors2)` by angular distance to
`d`, then ratio-test the two nearest.  Returns `none` when the Python code
raises (acos domain error, missing second neighbour, division by zero);
`some none` when no match is appended; `some (some j)` when `[i, j]` is
appended. -/
def bestMatchRow (ac : ℚ → ℚ) (d2 : List Desc) (t : ℚ) (d : Desc) : Option (Option Nat) :=
  match rowKeys ac d d2.enum with
  | none => none
  | some keyed =>
    let sortedL := keyed.insertionSort keyLe
    match sortedL.get? 0 with
    | none => none
    | some s0 =>
      match macos ac (dotQ d s0.1.2) with
      | none => none
      | some a =>
        match sortedL.get? 1 with
        | none => none
        | some s1 =>
          match macos ac (dotQ d s1.1.2) with
          | none => none
          | some b =>
            if b = 0 then none
            else some (if a / b ≤ t then some s0.1.1 else none)

/-- The `for i in range(len(descriptors1))` loop of `FindBestMatches`,
processing the rows of `descriptors1` in order (`i` is the index of the
current row); accepted pairs are appended in ascending order of `i`. -/
def fbmGo (ac : ℚ → ℚ) (d2 : List Desc) (t : ℚ) : Nat → List Desc → Option (List (Nat × Nat))
  | _, [] => some []
  | i, d :: rest =>
    match bestMatchRow ac d2 t d with
    | none => none
    | some r =>
      match fbmGo ac d2 t (i + 1) rest with
      | none => none
      | some tail =>
        some (match r with
              | some j => (i, j) :: tail
              | none => tail)

/-- `FindBestMatches(descriptors1, descriptors2, threshold)` from
`solution.py`.  `none` models the call raising an exception. -/
def FindBestMatches (ac : ℚ → ℚ) (d1 d2 : List Desc) (t : ℚ) : Option (List (Nat × Nat)) :=
  fbmGo ac d2 t 0 d1

/-- Modelled from the spec: the spec's required clamping of the dot
product to `[-1, 1]` before `acos` ("dot product is clamped to [-1,1] to
avoid domain errors"); this variant of `macos` never fails. -/
def macosClamp (ac : ℚ → ℚ) (x : ℚ) : Option ℚ :=
  some (ac (max (-1) (min 1 x)))

/-- Modelled from the spec: `rowKeys` with the clamped acos. -/
def rowKeysClamp (ac : ℚ → ℚ) (d : Desc) : List (Nat × Desc) → Option (List ((Nat × Desc) × ℚ))
  | [] => some []
  | p :: rest =>
    match macosClamp ac (dotQ d p.2), rowKeysClamp ac d rest with
    | some v, some ks => some ((p, v) :: ks)
    | _, _ => none

/-- Modelled from the spec: `bestMatchRow` with the clamped acos; the
other failure modes (missing second neighbour, division by zero) are kept
as in the source. -/
def bestMatchRowClamp (ac : ℚ → ℚ) (d2 : List Desc) (t : ℚ) (d : Desc) : Option (Option Nat) :=
  match rowKeysClamp ac d d2.enum with
  | none => none
  | some keyed =>
    let sortedL := keyed.insertionSort keyLe
    match sortedL.get? 0 with
    | none => none
    | some s0 =>
      match macosClamp ac (dotQ d s0.1.2) with
      | none => none
      | some a =>
        match sortedL.get? 1 with
        | none => none
        | some s1 =>
          match macosClamp ac (dotQ d s1.1.2) with
          | none => none
          | some b =>
            if b = 0 then none
            else some (if a / b ≤ t then some s0.1.1 else none)

/-- Modelled from the spec: the matcher loop with clamped acos. -/
def fbmGoClamp (ac : ℚ → ℚ) (d2 : List Desc) (t : ℚ) : Nat → List Desc → Option (List (Nat × Nat))
  | _, [] => some []
  | i, d :: rest =>
    match bestMatchRowClamp ac d2 t d with
    | none => none
    | some r =>
      match fbmGoClamp ac d2 t (i + 1) rest with
      | none => none
      | some tail =>
        some (match r with
              | some j => (i, j) :: tail
              | none => tail)

/-- Modelled from the spec: `FindBestMatches` as the spec describes it,
with the dot product clamped to `[-1, 1]` before `acos`. -/
def FindBestMatchesClamp (ac : ℚ → ℚ) (d1 d2 : List Desc) (t : ℚ) : Option (List (Nat × Nat)) :=
  fbmGoClamp ac d2 t 0 d1

/-- One keypoint row of the `(num_pts, 4)` arrays: row, col, scale,
orientation. -/
structure Keypoint where
  row : ℚ
  col : ℚ
  scale : ℚ
  orient : ℚ
deriving DecidableEq

/-- `keypoints1[m[0]][3] - keypoints2[m[1]][3]`: the orientation
difference of a matched pair.  The keypoint arrays are modelled as total
functions from indices, so out-of-range indexing (which the Python code
never survives anyway) does not arise. -/
def orientDiff (kp1 kp2 : Nat → Keypoint) (m : Nat × Nat) : ℚ :=
  (kp1 m.1).orient - (kp2 m.2).orient

/-- `keypoints1[m[0]][2] / keypoints2[m[1]][2]`: the scale quotient of a
matched pair.  `ℚ` division is total with `x / 0 = 0`; the data model
requires strictly positive scales, under which this agrees with Python. -/
def scaleQuot (kp1 kp2 : Nat → Keypoint) (m : Nat × Nat) : ℚ :=
  (kp1 m.1).scale / (kp2 m.2).scale

/-- The inner `for j in range(len(matched_pairs))` scan of `RANSACFilter`:
collect every match whose orientation difference and scale quotient agree
with the sampled base match within the thresholds. -/
def consensusSet (kp1 kp2 : Nat → Keypoint) (oa sa : ℚ) (mpairs : List (Nat × Nat))
    (base : Nat × Nat) : List (Nat × Nat) :=
  mpairs.filter (fun m =>
    decide (|orientDiff kp1 kp2 m - orientDiff kp1 kp2 base| ≤ oa) &&
    decide (|scaleQuot kp1 kp2 m - scaleQuot kp1 kp2 base| ≤ sa))

/-- The outer `for i in range(len(random_selections))` loop of
`RANSACFilter`, keeping the first largest consensus set. -/
def filterLoop (kp1 kp2 : Nat → Keypoint) (oa sa : ℚ) (mpairs : List (Nat × Nat)) :
    List (Nat × Nat) → List (Nat × Nat) → List (Nat × Nat)
  | largest, [] => largest
  | largest, base :: rest =>
    let current := consensusSet kp1 kp2 oa sa mpairs base
    filterLoop kp1 kp2 oa sa mpairs
      (if largest.length < current.length then current else largest) rest

/-- `RANSACFilter(matched_pairs, keypoints1, keypoints2, orient_agreement,
scale_agreement)` from `solution.py`.  `draws` is the list returned by
`random.sample(matched_pairs, 10)` (injected randomness); that call raises
`ValueError` exactly when fewer than 10 mpairs are supplied, which is the
`none` branch. -/
def RANSACFilter (mpairs : List (Nat × Nat)) (kp1 kp2 : Nat → Keypoint) (oa sa : ℚ)
    (draws : List (Nat × Nat)) : Option (List (Nat × Nat)) :=
  if mpairs.length < 10 then none
  else some (filterLoop kp1 kp2 oa sa mpairs [] draws)

/-- A 2-D point (one row of an `(n, 2)` float array). -/
abbrev Pt := ℚ × ℚ

/-- A 3×3 homography matrix. -/
abbrev Mat3 := Fin 3 → Fin 3 → ℚ

/-- The 3×3 identity matrix. -/
def idMat : Mat3 := fun i j => if i = j then 1 else 0

/-- One row of `KeypointProjection`: homogenise `(x, y)` to `(x, y, 1)`,
multiply by `h`, divide by the third coordinate.  numpy's division by an
exactly-zero `w` yields an `inf`/`NaN` row (no exception); that row is
modelled as `none`, and the consensus counting below treats it as a
non-match, exactly as `nan <= tol` and `inf <= tol` are false. -/
def projPoint (h : Mat3) (p : Pt) : Option Pt :=
  let x := h 0 0 * p.1 + h 0 1 * p.2 + h 0 2
  let y := h 1 0 * p.1 + h 1 1 * p.2 + h 1 2
  let w := h 2 0 * p.1 + h 2 1 * p.2 + h 2 2
  if w = 0 then none else some (x / w, y / w)

/-- `KeypointProjection(xy_points, h)` from `solution.py`, applied
row-wise. -/
def KeypointProjection (pts : List Pt) (h : Mat3) : List (Option Pt) :=
  pts.map (projPoint h)

/-- `np.linalg.norm(xy_ref[j] - projected_points[j]) <= tol`, stated on
squares to stay inside `ℚ` (for `tol ≥ 0` the two are equivalent, and a
negative `tol` admits no inlier either way); an `inf`/`NaN` projected row
(`none`) is never an inlier. -/
def isInlier (tol : ℚ) (ref : Pt) (proj : Option Pt) : Bool :=
  match proj with
  | none => false
  | some q => decide (0 ≤ tol ∧ (ref.1 - q.1) ^ 2 + (ref.2 - q.2) ^ 2 ≤ tol ^ 2)

/-- The `for j in range(len(xy_src))` inlier scan of `RANSACHomography`:
indices whose projection lands within `tol` of the reference point. -/
def inlierIndices (tol : ℚ) (src ref : List Pt) (h : Mat3) : List Nat :=
  (List.range src.length).filter
    (fun j => isInlier tol (ref.getD j (0, 0)) (projPoint h (src.getD j (0, 0))))

/-- Modelled from the spec: `cv2.findHomography` is an external
collaborator ("given ≥4 point correspondences, returns a least-squares
optimal 3×3 homography, or a failure signal if the points are degenerate
(collinear / too few distinct points)"); it is a parameter mapping the
gathered source and reference points to `some` matrix or a degeneracy
signal `none`. -/
abbrev Solver := List Pt → List Pt → Option Mat3

/-- `xy_src[index_list]`: numpy fancy indexing, gathering rows. -/
def gather (pts : List Pt) (idx : List Nat) : List Pt :=
  idx.map (fun i => pts.getD i (0, 0))

/-- One iteration of the `for i in range(num_iter)` loop of
`RANSACHomography` with its random 4-draw injected.  `random.sample(range(
len(xy_src)), 4)` raises when fewer than 4 points exist; a degenerate
solve hands `h = None` to `KeypointProjection`, whose
`isinstance(h, np.ndarray)` assertion aborts the call, hence `none`. -/
def ransacStep (solver : Solver) (src ref : List Pt) (tol : ℚ)
    (best : List Nat) (sample : List Nat) : Option (List Nat) :=
  if src.length < 4 then none
  else
    match solver (gather src sample) (gather ref sample) with
    | none => none
    | some h =>
      let current := inlierIndices tol src ref h
      some (if best.length < current.length then current else best)

/-- The whole iteration loop of `RANSACHomography`: fold the steps over
the injected per-iteration draws, starting from the empty largest set. -/
def ransacLargest (solver : Solver) (src ref : List Pt) (tol : ℚ) :
    List Nat → List (List Nat) → Option (List Nat)
  | best, [] => some best
  | best, s :: rest =>
    match ransacStep solver src ref tol best s with
    | none => none
    | some b2 => ransacLargest solver src ref tol b2 rest

/-- `RANSACHomography(xy_src, xy_ref, num_iter, tol)` from `solution.py`
(`num_iter = samples.length`, one injected 4-draw per iteration): run the
loop, then refit on the whole winning inlier set with the external
solver. -/
def RANSACHomography (solver : Solver) (src ref : List Pt) (tol : ℚ)
    (samples : List (List Nat)) : Option Mat3 :=
  match ransacLargest solver src ref tol [] samples with
  | none => none
  | some largest => solver (gather src largest) (gather ref largest)

/-- Modelled from the spec: one iteration of the estimator as §4.4
prescribes it, where a degeneracy signal from the solver is absorbed
("skip this iteration's candidate (treat as an empty inlier set, do not
crash)"). -/
def ransacStepSkip (solver : Solver) (src ref : List Pt) (tol : ℚ)
    (best : List Nat) (sample : List Nat) : Option (List Nat) :=
  if src.length < 4 then none
  else
    match solver (gather src sample) (gather ref sample) with
    | none => some best
    | some h =>
      let current := inlierIndices tol src ref h
      some (if best.length < current.length then current else best)

/-- Modelled from the spec: the estimator loop with degeneracy-skipping
iterations. -/
def ransacLargestSkip (solver : Solver) (src ref : List Pt) (tol : ℚ) :
    List Nat → List (List Nat) → Option (List Nat)
  | best, [] => some best
  | best, s :: rest =>
    match ransacStepSkip solver src ref tol best s with
    | none => none
    | some b2 => ransacLargestSkip solver src ref tol b2 rest

/-- Modelled from the spec: the estimator as §4.4 prescribes it, skipping
degenerate iterations and refitting on the winning set. -/
def RANSACHomographySkip (solver : Solver) (src ref : List Pt) (tol : ℚ)
    (samples : List (List Nat)) : Option Mat3 :=
  match ransacLargestSkip solver src ref tol [] samples with
  | none => none
  | some largest => solver (gather src largest) (gather ref largest)

/-- The angular distance the matcher attaches to row `i` of `descriptors1`
and row `j` of `descriptors2` (the total-value reading, valid on every run
that does not abort). -/
def rowDist (ac : ℚ → ℚ) (d1 d2 : List Desc) (i j : Nat) : ℚ :=
  ac (dotQ (d1.getD i []) (d2.getD j []))

/-- The ascending list of angular distances from descriptor `d` to the
rows of `descriptors2`; its first and second entries are the smallest and
second-smallest distances (with multiplicity). -/
def sortedDists (ac : ℚ → ℚ) (d : Desc) (d2 : List Desc) : List ℚ :=
  (d2.map (fun v => ac (dotQ d v))).insertionSort (· ≤ ·)

/-- A concrete stand-in for the float `acos` implementation, used to
instantiate witnesses (any `ℚ → ℚ` function works for them). -/
def acLin : ℚ → ℚ := fun x => 1 - x

/-- Concrete keypoint array for witnesses: every keypoint at the origin
with scale 1 and orientation 0. -/
def kp0 : Nat → Keypoint := fun _ => ⟨0, 0, 1, 0⟩

/-- Ten concrete diagonal matches for witnesses. -/
def mp10 : List (Nat × Nat) :=
  [(0, 0), (1, 1), (2, 2), (3, 3), (4, 4), (5, 5), (6, 6), (7, 7), (8, 8), (9, 9)]

/-- Four concrete points (unit square corners) for witnesses. -/
def src4 : List Pt := [(0, 0), (1, 0), (0, 1), (1, 1)]

/-- A concrete solver for witnesses: fails on fewer than 4 points (as the
spec requires of the external solver), otherwise returns the identity. -/
def solver4 : Solver := fun a _ => if a.length < 4 then none else some idMat

/-- A concrete solver for witnesses that signals degeneracy exactly on one
particular 4-point sample (the unit square gathered in the order
`[1, 0, 2, 3]`) and succeeds elsewhere. -/
def badSolver : Solver :=
  fun a _ => if a = [(1, 0), (0, 0), (0, 1), (1, 1)] then none else some idMat

/-- A concrete solver for witnesses that always signals degeneracy. -/
def noSolver : Solver := fun _ _ => none

/-! ### Helper lemmas: the consensus filter -/

theorem consensusSet_subset (kp1 kp2 : Nat → Keypoint) (oa sa : ℚ)
    (mp : List (Nat × Nat)) (base : Nat × Nat) :
    ∀ m ∈ consensusSet kp1 kp2 oa sa mp base, m ∈ mp := by
  intro m hm
  unfold consensusSet at hm
  exact (List.mem_filter.mp hm).1

theorem base_mem_consensusSet (kp1 kp2 : Nat → Keypoint) {oa sa : ℚ}
    {mp : List (Nat × Nat)} {base : Nat × Nat}
    (hb : base ∈ mp) (hoa : 0 ≤ oa) (hsa : 0 ≤ sa) :
    base ∈ consensusSet kp1 kp2 oa sa mp base := by
  unfold consensusSet
  refine List.mem_filter.mpr ⟨hb, ?_⟩
  simp [sub_self, abs_zero, hoa, hsa]

theorem consensusSet_length_mono (kp1 kp2 : Nat → Keypoint) {oa1 oa2 sa1 sa2 : ℚ}
    (hoa : oa1 ≤ oa2) (hsa : sa1 ≤ sa2) (mp : List (Nat × Nat)) (base : Nat × Nat) :
    (consensusSet kp1 kp2 oa1 sa1 mp base).length ≤
      (consensusSet kp1 kp2 oa2 sa2 mp base).length := by
  apply List.Sublist.length_le
  apply List.monotone_filter_right
  intro m hm
  simp only [Bool.and_eq_true, decide_eq_true_eq] at hm ⊢
  exact ⟨hm.1.trans hoa, hm.2.trans hsa⟩

theorem filterLoop_length_mono (kp1 kp2 : Nat → Keypoint) {oa1 oa2 sa1 sa2 : ℚ}
    (hoa : oa1 ≤ oa2) (hsa : sa1 ≤ sa2) (mp : List (Nat × Nat))
    (draws : List (Nat × Nat)) :
    ∀ acc1 acc2 : List (Nat × Nat), acc1.length ≤ acc2.length →
      (filterLoop kp1 kp2 oa1 sa1 mp acc1 draws).length ≤
        (filterLoop kp1 kp2 oa2 sa2 mp acc2 draws).length := by
  induction draws with
  | nil => intro acc1 acc2 h; simpa [filterLoop] using h
  | cons base rest ih =>
    intro acc1 acc2 h
    simp only [filterLoop]
    apply ih
    have hc := consensusSet_length_mono kp1 kp2 hoa hsa mp base
    split_ifs <;> omega

theorem filterLoop_length_le (kp1 kp2 : Nat → Keypoint) (oa sa : ℚ)
    (mp : List (Nat × Nat)) (draws : List (Nat × Nat)) :
    ∀ acc : List (Nat × Nat),
      acc.length ≤ (filterLoop kp1 kp2 oa sa mp acc draws).length := by
  induction draws with
  | nil => intro acc; simp [filterLoop]
  | cons base rest ih =>
    intro acc
    simp only [filterLoop]
    refine le_trans ?_ (ih _)
    split_ifs with hif
    · omega
    · exact le_rfl

theorem filterLoop_subset (kp1 kp2 : Nat → Keypoint) (oa sa : ℚ)
    (mp : List (Nat × Nat)) (draws : List (Nat × Nat)) :
    ∀ acc : List (Nat × Nat), (∀ m ∈ acc, m ∈ mp) →
      ∀ m ∈ filterLoop kp1 kp2 oa sa mp acc draws, m ∈ mp := by
  induction draws with
  | nil => intro acc hacc; simpa [filterLoop] using hacc
  | cons base rest ih =>
    intro acc hacc
    simp only [filterLoop]
    apply ih
    split_ifs
    · exact consensusSet_subset kp1 kp2 oa sa mp base
    · exact hacc

/-! ### Claim theorems: consensus filter and projection -/

/-- Claim C1 counterexample: with 3 matches (between 1 and 9), the filter
call fails (`random.sample(matched_pairs, 10)` raises), contradicting the
claim that only zero input matches make it fail. -/
theorem ransacFilter_three_matches_fails :
    RANSACFilter [(0, 0), (1, 1), (2, 2)] kp0 kp0 1 1 [] = none := by decide

/-- Claim C1, amended: the number of samples requested is always exactly
10 (never `len(matches)`), so the call fails precisely when fewer than 10
matches are supplied — including between 1 and 9 matches, not only zero. -/
theorem ransacFilter_none_iff_lt_ten (mp : List (Nat × Nat)) (kp1 kp2 : Nat → Keypoint)
    (oa sa : ℚ) (draws : List (Nat × Nat)) :
    RANSACFilter mp kp1 kp2 oa sa draws = none ↔ mp.length < 10 := by
  unfold RANSACFilter
  split <;> simp_all

/-- Claim C8: with the same random draws and looser thresholds
(`oa1 ≤ oa2`, `sa1 ≤ sa2`), the consensus filter succeeds whenever the
tight run succeeds and returns a consensus set at least as large. -/
theorem ransacFilter_threshold_mono (mp : List (Nat × Nat)) (kp1 kp2 : Nat → Keypoint)
    (oa1 oa2 sa1 sa2 : ℚ) (draws T : List (Nat × Nat))
    (hoa : oa1 ≤ oa2) (hsa : sa1 ≤ sa2)
    (hT : RANSACFilter mp kp1 kp2 oa1 sa1 draws = some T) :
    ∃ L, RANSACFilter mp kp1 kp2 oa2 sa2 draws = some L ∧ T.length ≤ L.length := by
  unfold RANSACFilter at hT ⊢
  split at hT
  · cases hT
  · rename_i hlen
    rw [if_neg hlen]
    injection hT with hT
    exact ⟨_, rfl, hT ▸ filterLoop_length_mono kp1 kp2 hoa hsa mp draws [] [] le_rfl⟩

/-- Claim C8 witness: a concrete tight/loose threshold pair on ten
identical keypoints. -/
theorem ransacFilter_threshold_mono_witness :
    ∃ L, RANSACFilter mp10 kp0 kp0 1 1 [(0, 0)] = some L ∧ mp10.length ≤ L.length :=
  ransacFilter_threshold_mono mp10 kp0 kp0 0 1 0 1 [(0, 0)] mp10
    (by decide) (by decide) (by decide)

/-- Claim C10: with at least 10 matches, non-negative thresholds, and the
draws coming from the match list (as `random.sample` guarantees), the
filter succeeds and returns a non-empty subset of the input matches: every
sampled match deviates from its own hypothesis by exactly zero, so each
scan keeps at least the sampled match itself. -/
theorem ransacFilter_nonempty_subset (mp : List (Nat × Nat)) (kp1 kp2 : Nat → Keypoint)
    (oa sa : ℚ) (draws : List (Nat × Nat))
    (hlen : 10 ≤ mp.length) (hne : draws ≠ []) (hdr : ∀ b ∈ draws, b ∈ mp)
    (hoa : 0 ≤ oa) (hsa : 0 ≤ sa) :
    ∃ out, RANSACFilter mp kp1 kp2 oa sa draws = some out ∧ out ≠ [] ∧
      ∀ m ∈ out, m ∈ mp := by
  obtain ⟨b, rest, rfl⟩ := List.exists_cons_of_ne_nil hne
  unfold RANSACFilter
  rw [if_neg (by omega)]
  refine ⟨_, rfl, ?_, filterLoop_subset kp1 kp2 oa sa mp _ [] (by simp)⟩
  have hb : b ∈ consensusSet kp1 kp2 oa sa mp b :=
    base_mem_consensusSet kp1 kp2 (hdr b (List.mem_cons_self b rest)) hoa hsa
  have hc : 0 < (consensusSet kp1 kp2 oa sa mp b).length :=
    List.length_pos_of_mem hb
  apply List.ne_nil_of_length_pos
  simp only [filterLoop, List.length_nil, if_pos hc]
  exact lt_of_lt_of_le hc (filterLoop_length_le kp1 kp2 oa sa mp rest _)

/-- Claim C10 witness: ten diagonal matches over identical keypoints with
zero thresholds. -/
theorem ransacFilter_nonempty_subset_witness :
    ∃ out, RANSACFilter mp10 kp0 kp0 0 0 [(0, 0)] = some out ∧ out ≠ [] ∧
      ∀ m ∈ out, m ∈ mp10 :=
  ransacFilter_nonempty_subset mp10 kp0 kp0 0 0 [(0, 0)]
    (by decide) (by decide) (by decide) (by decide) (by decide)

/-- Claim C9: projecting any list of points through the identity 3×3
matrix returns every point unchanged (each row stays finite, i.e. `some`,
because the homogeneous coordinate is 1). -/
theorem keypointProjection_identity (pts : List Pt) :
    KeypointProjection pts idMat = pts.map some := by
  unfold KeypointProjection
  refine List.map_congr_left fun p _ => ?_
  show projPoint idMat p = some p
  norm_num [projPoint, idMat, Fin.ext_iff]

/-! ### Helper lemmas: the homography estimator -/

theorem gather_length (pts : List Pt) (idx : List Nat) :
    (gather pts idx).length = idx.length := by
  simp [gather]

theorem ransacLargest_spec (solver : Solver) (src ref : List Pt) (tol : ℚ) :
    ∀ (samples : List (List Nat)) (acc best : List Nat),
      ransacLargest solver src ref tol acc samples = some best →
      (best = acc ∨ ∃ s ∈ samples, ∃ hm, solver (gather src s) (gather ref s) = some hm ∧
          best = inlierIndices tol src ref hm) ∧
      acc.length ≤ best.length ∧
      (∀ s ∈ samples, ∀ hm, solver (gather src s) (gather ref s) = some hm →
          (inlierIndices tol src ref hm).length ≤ best.length) := by
  intro samples
  induction samples with
  | nil =>
    intro acc best h
    simp only [ransacLargest] at h
    injection h with h
    subst h
    exact ⟨Or.inl rfl, le_rfl, by simp⟩
  | cons s rest ih =>
    intro acc best h
    simp only [ransacLargest] at h
    split at h
    · cases h
    · rename_i b2 hstep
      unfold ransacStep at hstep
      split at hstep
      · cases hstep
      · split at hstep
        · cases hstep
        · rename_i h4 hm hsol
          injection hstep with hb2
          obtain ⟨h1, h2, h3⟩ := ih b2 best h
          subst hb2
          set cur := inlierIndices tol src ref hm with hcur
          refine ⟨?_, ?_, ?_⟩
          · rcases h1 with h1 | ⟨s2, hs2, hm2, hsol2, hbest⟩
            · by_cases hlt : acc.length < cur.length
              · rw [if_pos hlt] at h1
                exact Or.inr ⟨s, List.mem_cons_self s rest, hm, hsol, h1⟩
              · rw [if_neg hlt] at h1
                exact Or.inl h1
            · exact Or.inr ⟨s2, List.mem_cons_of_mem s hs2, hm2, hsol2, hbest⟩
          · refine le_trans ?_ h2
            split_ifs with hlt
            · omega
            · exact le_rfl
          · intro s2 hs2 hm2 hsol2
            rcases List.mem_cons.mp hs2 with rfl | hs2
            · rw [hsol] at hsol2
              injection hsol2 with e
              subst e
              rw [← hcur]
              refine le_trans ?_ h2
              split_ifs with hlt <;> omega
            · exact h3 s2 hs2 hm2 hsol2

theorem ransacLargest_append (solver : Solver) (src ref : List Pt) (tol : ℚ) :
    ∀ (l1 l2 : List (List Nat)) (acc : List Nat),
      ransacLargest solver src ref tol acc (l1 ++ l2) =
        match ransacLargest solver src ref tol acc l1 with
        | none => none
        | some b => ransacLargest solver src ref tol b l2 := by
  intro l1
  induction l1 with
  | nil => intro l2 acc; simp [ransacLargest]
  | cons s rest ih =>
    intro l2 acc
    simp only [List.cons_append, ransacLargest]
    cases ransacStep solver src ref tol acc s with
    | none => rfl
    | some b2 => exact ih l2 b2

/-! ### Claim theorems: the homography estimator -/

/-- Claim C2: when, after all iterations, the winning inlier set has fewer
than 4 members, the estimator fails rather than returning a matrix: the
final refit hands fewer than 4 correspondences to the external solver,
which fails on them (per its spec contract — in the source, the
`cv2.findHomography` error propagates out of the call). -/
theorem ransacHomography_no_consensus_fails (solver : Solver) (src ref : List Pt)
    (tol : ℚ) (samples : List (List Nat)) (best : List Nat)
    (hsolver : ∀ a b, a.length < 4 → solver a b = none)
    (hrun : ransacLargest solver src ref tol [] samples = some best)
    (hlt : best.length < 4) :
    RANSACHomography solver src ref tol samples = none := by
  unfold RANSACHomography
  rw [hrun]
  exact hsolver _ _ (by simpa [gather_length] using hlt)

/-- Claim C2 witness: zero iterations leave the empty inlier set and the
call fails. -/
theorem ransacHomography_no_consensus_fails_witness :
    ransacLargest solver4 src4 src4 0 [] [] = some [] ∧
      RANSACHomography solver4 src4 src4 0 [] = none :=
  ⟨rfl, ransacHomography_no_consensus_fails solver4 src4 src4 0 [] []
    (fun _ _ h => if_pos h) rfl (by decide)⟩

/-- Claim C3 counterexample: a solver degenerate exactly on the first
iteration's sample makes the source estimator abort (`None` reaches the
projector's `isinstance` assertion), while the spec's skip-and-continue
estimator on the same input carries on and succeeds; the iteration is not
skipped. -/
theorem ransacHomography_degenerate_sample_cx :
    RANSACHomography badSolver src4 src4 0 [[1, 0, 2, 3], [0, 1, 2, 3]] = none ∧
      RANSACHomographySkip badSolver src4 src4 0 [[1, 0, 2, 3], [0, 1, 2, 3]] = some idMat := by
  decide

/-- Claim C3, amended: when the external solver signals degeneracy on any
iteration's 4 sampled correspondences, the whole estimator call fails (the
missing matrix aborts at the projector's input check); the iteration is
not skipped and later iterations never run. -/
theorem ransacHomography_degenerate_sample_aborts (solver : Solver) (src ref : List Pt)
    (tol : ℚ) (pre post : List (List Nat)) (s best : List Nat)
    (h4 : 4 ≤ src.length)
    (hpre : ransacLargest solver src ref tol [] pre = some best)
    (hdeg : solver (gather src s) (gather ref s) = none) :
    RANSACHomography solver src ref tol (pre ++ s :: post) = none := by
  unfold RANSACHomography
  rw [ransacLargest_append, hpre]
  simp only [ransacLargest, ransacStep, if_neg (Nat.not_lt.mpr h4), hdeg]

/-- Claim C3 amended witness: an always-degenerate solver aborts a
one-iteration run. -/
theorem ransacHomography_degenerate_aborts_witness :
    RANSACHomography noSolver src4 src4 0 [[0, 1, 2, 3]] = none :=
  ransacHomography_degenerate_sample_aborts noSolver src4 src4 0 [] [] [0, 1, 2, 3] []
    (by decide) rfl rfl

/-- Claim C7: every successful estimator call returns exactly the matrix
the external solver refits on the gathered points of the winning inlier
set — a set that is either empty or the inlier set scored for one of the
iterations' minimal-sample fits, and whose size is maximal among all the
iterations' inlier sets (the minimal-sample fits themselves only produce
those scored sets). -/
theorem ransacHomography_refit_on_largest (solver : Solver) (src ref : List Pt)
    (tol : ℚ) (samples : List (List Nat)) (hmat : Mat3)
    (hs : RANSACHomography solver src ref tol samples = some hmat) :
    ∃ best, ransacLargest solver src ref tol [] samples = some best ∧
      solver (gather src best) (gather ref best) = some hmat ∧
      (best = [] ∨ ∃ s ∈ samples, ∃ hm, solver (gather src s) (gather ref s) = some hm ∧
          best = inlierIndices tol src ref hm) ∧
      (∀ s ∈ samples, ∀ hm, solver (gather src s) (gather ref s) = some hm →
          (inlierIndices tol src ref hm).length ≤ best.length) := by
  unfold RANSACHomography at hs
  split at hs
  · cases hs
  · rename_i best hrun
    obtain ⟨h1, -, h3⟩ := ransacLargest_spec solver src ref tol samples [] best hrun
    exact ⟨best, hrun, hs, h1, h3⟩

/-- Claim C7 witness: a one-iteration run with the identity solver on the
unit square. -/
theorem ransacHomography_refit_on_largest_witness :
    ∃ best, ransacLargest solver4 src4 src4 0 [] [[0, 1, 2, 3]] = some best ∧
      solver4 (gather src4 best) (gather src4 best) = some idMat ∧
      (best = [] ∨ ∃ s ∈ [[0, 1, 2, 3]], ∃ hm,
          solver4 (gather src4 s) (gather src4 s) = some hm ∧
          best = inlierIndices 0 src4 src4 hm) ∧
      (∀ s ∈ [[0, 1, 2, 3]], ∀ hm, solver4 (gather src4 s) (gather src4 s) = some hm →
          (inlierIndices 0 src4 src4 hm).length ≤ best.length) :=
  ransacHomography_refit_on_largest solver4 src4 src4 0 [[0, 1, 2, 3]] idMat (by decide)

/-! ### Helper lemmas: the descriptor matcher -/

theorem rowKeys_none_of_mem (ac : ℚ → ℚ) (d : Desc) :
    ∀ l : List (Nat × Desc), (∃ p ∈ l, macos ac (dotQ d p.2) = none) →
      rowKeys ac d l = none := by
  intro l
  induction l with
  | nil => rintro ⟨p, hp, -⟩; cases hp
  | cons q rest ih =>
    rintro ⟨p, hp, hnone⟩
    rcases List.mem_cons.mp hp with rfl | hp
    · simp only [rowKeys, hnone]
    · cases hmac : macos ac (dotQ d q.2) with
      | none => simp [rowKeys, hmac]
      | some v => simp [rowKeys, hmac, ih ⟨p, hp, hnone⟩]

/-! ### Claim theorems: the descriptor matcher, failure modes -/

/-- Claim C4 counterexample: on descriptors whose dot product is 2, the
source matcher fails with an acos domain error (no clamping is applied),
while the spec's clamped matcher on the same input succeeds; so the dot
product is not clamped before `acos`. -/
theorem findBestMatches_unclamped_cx :
    FindBestMatches acLin [[2, 0]] [[1, 0], [0, 1]] (1 / 2) = none ∧
      FindBestMatchesClamp acLin [[2, 0]] [[1, 0], [0, 1]] (1 / 2) = some [(0, 0)] := by
  decide

/-- Claim C4, amended: the dot product is passed to `acos` without
clamping, so whenever some compared dot product of the first descriptor
row lies outside `[-1, 1]`, the matcher call fails with a domain error
instead of clamping it. -/
theorem findBestMatches_unclamped_domain_error (ac : ℚ → ℚ) (d : Desc)
    (rest d2 : List Desc) (t : ℚ)
    (hv : ∃ v ∈ d2, dotQ d v < -1 ∨ 1 < dotQ d v) :
    FindBestMatches ac (d :: rest) d2 t = none := by
  obtain ⟨v, hvmem, hvr⟩ := hv
  have hp : ∃ p ∈ d2.enum, macos ac (dotQ d p.2) = none := by
    have hm : v ∈ d2.enum.map Prod.snd := by rw [List.enum_map_snd]; exact hvmem
    obtain ⟨p, hpmem, hpv⟩ := List.mem_map.mp hm
    refine ⟨p, hpmem, ?_⟩
    rw [hpv]
    unfold macos
    rw [if_pos hvr]
  have hrow : bestMatchRow ac d2 t d = none := by
    unfold bestMatchRow
    rw [rowKeys_none_of_mem ac d d2.enum hp]
  simp [FindBestMatches, fbmGo, hrow]

/-- Claim C4 amended witness: dot product 2 in the first row aborts. -/
theorem findBestMatches_unclamped_domain_error_witness :
    FindBestMatches acLin [[2, 0]] [[1, 0], [0, 1]] (1 / 2) = none :=
  findBestMatches_unclamped_domain_error acLin [2, 0] [] [[1, 0], [0, 1]] (1 / 2)
    ⟨[1, 0], by decide, Or.inr (by decide)⟩

/-- Claim C5 counterexample: with a single entry in `descriptors2` (and a
non-empty `descriptors1`), the matcher call fails (the sorted list has no
second element to index), contradicting the claim that the call completes
without error and merely omits the match. -/
theorem findBestMatches_single_neighbour_cx :
    FindBestMatches acLin [[1]] [[1]] (1 / 2) = none := by decide

/-- Claim C5, amended: when `descriptors2` has fewer than 2 entries, the
matcher returns no matches only for an empty `descriptors1` (the loop body
never runs); for a non-empty `descriptors1` it fails with an index error
on the missing second neighbour. -/
theorem findBestMatches_few_descriptors2 (ac : ℚ → ℚ) (d1 d2 : List Desc) (t : ℚ)
    (h2 : d2.length < 2) :
    FindBestMatches ac d1 d2 t = if d1.isEmpty then some [] else none := by
  cases d1 with
  | nil => simp [FindBestMatches, fbmGo]
  | cons d rest =>
    have hrow : bestMatchRow ac d2 t d = none := by
      match d2, h2 with
      | [], _ => simp [bestMatchRow, rowKeys]
      | [v], _ =>
        cases hmac : macos ac (dotQ d v) with
        | none => simp [bestMatchRow, rowKeys, hmac]
        | some w => simp [bestMatchRow, rowKeys, hmac]
    simp [FindBestMatches, fbmGo, hrow]

/-- Claim C5 amended witness: one descriptor on each side. -/
theorem findBestMatches_few_descriptors2_witness :
    FindBestMatches acLin [[1]] [[1]] (1 / 2) =
      if ([[1]] : List Desc).isEmpty then some [] else none :=
  findBestMatches_few_descriptors2 acLin [[1]] [[1]] (1 / 2) (by decide)

theorem macos_some (ac : ℚ → ℚ) {x y : ℚ} (h : macos ac x = some y) : y = ac x := by
  unfold macos at h
  split at h
  · cases h
  · injection h with h
    exact h.symm

theorem rowKeys_some (ac : ℚ → ℚ) (d : Desc) :
    ∀ (l : List (Nat × Desc)) (ks : List ((Nat × Desc) × ℚ)),
      rowKeys ac d l = some ks →
      ks.map Prod.fst = l ∧
      ks.map Prod.snd = l.map (fun p => ac (dotQ d p.2)) ∧
      ∀ k ∈ ks, k.2 = ac (dotQ d k.1.2) := by
  intro l
  induction l with
  | nil =>
    intro ks h
    simp only [rowKeys] at h
    injection h with h
    subst h
    simp
  | cons q rest ih =>
    intro ks h
    simp only [rowKeys] at h
    cases hmac : macos ac (dotQ d q.2) with
    | none => rw [hmac] at h; simp at h
    | some v =>
      rw [hmac] at h
      cases hrest : rowKeys ac d rest with
      | none => rw [hrest] at h; simp at h
      | some ks2 =>
        rw [hrest] at h
        have h2 : some ((q, v) :: ks2) = some ks := h
        injection h2 with h2
        subst h2
        obtain ⟨h1, h2, h3⟩ := ih ks2 hrest
        have hv : v = ac (dotQ d q.2) := macos_some ac hmac
        refine ⟨by simp [h1], by simp [h2, hv], ?_⟩
        intro k hk
        rcases List.mem_cons.mp hk with rfl | hk
        · exact hv
        · exact h3 k hk

theorem keyed_sorted_map_snd (ac : ℚ → ℚ) (d : Desc) (d2 : List Desc)
    (keyed : List ((Nat × Desc) × ℚ)) (hk : rowKeys ac d d2.enum = some keyed) :
    (keyed.insertionSort keyLe).map Prod.snd = sortedDists ac d d2 := by
  have h2 := (rowKeys_some ac d d2.enum keyed hk).2.1
  rw [List.map_insertionSort keyLe (· ≤ ·) Prod.snd keyed (fun _ _ _ _ => Iff.rfl), h2]
  unfold sortedDists
  congr 1
  conv_rhs => rw [← List.enum_map_snd d2]
  rw [List.map_map]
  rfl

theorem bestMatchRow_spec (ac : ℚ → ℚ) (d2 : List Desc) (t : ℚ) (d : Desc) (r : Option Nat)
    (h : bestMatchRow ac d2 t d = some r) :
    ∃ j0, j0 < d2.length ∧
      ac (dotQ d (d2.getD j0 [])) = (sortedDists ac d d2).getD 0 0 ∧
      (∀ j2, j2 < d2.length →
        (sortedDists ac d d2).getD 0 0 ≤ ac (dotQ d (d2.getD j2 []))) ∧
      r = (if (sortedDists ac d d2).getD 0 0 / (sortedDists ac d d2).getD 1 0 ≤ t
           then some j0 else none) := by
  simp only [bestMatchRow] at h
  split at h
  · cases h
  · rename_i keyed hk
    obtain ⟨hfst, hsnd, hval⟩ := rowKeys_some ac d d2.enum keyed hk
    have hmapsnd := keyed_sorted_map_snd ac d d2 keyed hk
    split at h
    · cases h
    · rename_i s0 hs0
      split at h
      · cases h
      · rename_i a ha
        split at h
        · cases h
        · rename_i s1 hs1
          split at h
          · cases h
          · rename_i b hb
            have hs0mem : s0 ∈ keyed :=
              (List.mem_insertionSort keyLe).mp (List.get?_mem hs0)
            have hs1mem : s1 ∈ keyed :=
              (List.mem_insertionSort keyLe).mp (List.get?_mem hs1)
            have ha2 : a = s0.2 := by rw [macos_some ac ha, ← hval s0 hs0mem]
            have hb2 : b = s1.2 := by rw [macos_some ac hb, ← hval s1 hs1mem]
            have hd0 : (sortedDists ac d d2).getD 0 0 = s0.2 := by
              rw [← hmapsnd, List.getD_eq_getD_get?, List.get?_map, hs0]
              rfl
            have hd1 : (sortedDists ac d d2).getD 1 0 = s1.2 := by
              rw [← hmapsnd, List.getD_eq_getD_get?, List.get?_map, hs1]
              rfl
            have hs0enum : s0.1 ∈ d2.enum := by
              rw [← hfst]
              exact List.mem_map_of_mem Prod.fst hs0mem
            have hs0get : d2.get? s0.1.1 = some s0.1.2 :=
              List.mem_enum_iff_get?.mp hs0enum
            have hj0len : s0.1.1 < d2.length := by
              obtain ⟨hl, -⟩ := List.get?_eq_some.mp hs0get
              exact hl
            have hj0val : d2.getD s0.1.1 [] = s0.1.2 := by
              rw [List.getD_eq_getD_get?, hs0get]
              rfl
            have hminkey : ∀ k ∈ keyed, s0.2 ≤ k.2 := by
              intro k hkmem
              have hks : k ∈ keyed.insertionSort keyLe :=
                (List.mem_insertionSort keyLe).mpr hkmem
              obtain ⟨⟨ik, hik⟩, hkeq⟩ := List.mem_iff_get.mp hks
              have h0lt : 0 < (keyed.insertionSort keyLe).length := by omega
              have hs0get2 : (keyed.insertionSort keyLe).get ⟨0, h0lt⟩ = s0 := by
                have he := List.get?_eq_get h0lt
                rw [hs0] at he
                injection he with he
                exact he.symm
              rcases Nat.eq_zero_or_pos ik with rfl | hpos
              · rw [← hkeq, hs0get2]
              · have hrel := (List.pairwise_iff_get.mp
                  (List.sorted_insertionSort keyLe keyed)) ⟨0, h0lt⟩ ⟨ik, hik⟩ hpos
                rw [hs0get2, hkeq] at hrel
                exact hrel
            refine ⟨s0.1.1, hj0len, ?_, ?_, ?_⟩
            · rw [hj0val, ← hval s0 hs0mem, hd0]
            · intro j2 hj2
              have hget2 : d2.get? j2 = some (d2.getD j2 []) := by
                have hg := List.get?_eq_get hj2
                rw [hg, List.getD_eq_get]
              have hvmem : d2.getD j2 [] ∈ d2 := List.get?_mem hget2
              have hdist : ac (dotQ d (d2.getD j2 [])) ∈ keyed.map Prod.snd := by
                rw [hsnd]
                have hvmem2 : d2.getD j2 [] ∈ d2.enum.map Prod.snd := by
                  rw [List.enum_map_snd]
                  exact hvmem
                obtain ⟨p, hpmem, hpv⟩ := List.mem_map.mp hvmem2
                refine List.mem_map.mpr ⟨p, hpmem, ?_⟩
                rw [hpv]
              obtain ⟨k, hkmem, hkv⟩ := List.mem_map.mp hdist
              rw [hd0, ← hkv]
              exact hminkey k hkmem
            · rw [hd0, hd1, ← ha2, ← hb2]
              split at h
              · cases h
              · injection h with h
                exact h.symm

theorem fbmGo_spec (ac : ℚ → ℚ) (d2 : List Desc) (t : ℚ) :
    ∀ (rows : List Desc) (i0 : Nat) (out : List (Nat × Nat)),
      fbmGo ac d2 t i0 rows = some out →
      List.Pairwise (fun a b => a.1 < b.1) out ∧
      (∀ p ∈ out, i0 ≤ p.1) ∧
      (∀ k dd, rows.get? k = some dd → ∃ r, bestMatchRow ac d2 t dd = some r) ∧
      (∀ i j, (i, j) ∈ out ↔
        ∃ k dd, rows.get? k = some dd ∧ i = i0 + k ∧
          bestMatchRow ac d2 t dd = some (some j)) := by
  intro rows
  induction rows with
  | nil =>
    intro i0 out h
    simp only [fbmGo] at h
    injection h with h
    subst h
    refine ⟨List.Pairwise.nil, by simp, by simp, ?_⟩
    intro i j
    simp
  | cons dd rest ih =>
    intro i0 out h
    simp only [fbmGo] at h
    split at h
    · cases h
    · rename_i r hrow
      split at h
      · cases h
      · rename_i tail htail
        obtain ⟨hP, hmin, hsucc, hmem⟩ := ih (i0 + 1) tail htail
        have hsucc2 : ∀ k dd2, (dd :: rest).get? k = some dd2 →
            ∃ r2, bestMatchRow ac d2 t dd2 = some r2 := by
          intro k dd2 hget
          cases k with
          | zero =>
            injection hget with hget
            subst hget
            exact ⟨r, hrow⟩
          | succ k2 => exact hsucc k2 dd2 hget
        injection h with h
        cases r with
        | none =>
          subst h
          refine ⟨hP, fun p hp => le_trans (by omega) (hmin p hp), hsucc2, ?_⟩
          intro i j
          rw [hmem i j]
          constructor
          · rintro ⟨k, dd2, hget, hik, hrow2⟩
            exact ⟨k + 1, dd2, hget, by omega, hrow2⟩
          · rintro ⟨k, dd2, hget, hik, hrow2⟩
            cases k with
            | zero =>
              injection hget with hget
              subst hget
              rw [hrow] at hrow2
              cases hrow2
            | succ k2 =>
              exact ⟨k2, dd2, hget, by omega, hrow2⟩
        | some j0 =>
          subst h
          refine ⟨?_, ?_, hsucc2, ?_⟩
          · exact List.Pairwise.cons
              (fun p hp => lt_of_lt_of_le (by omega) (hmin p hp)) hP
          · intro p hp
            rcases List.mem_cons.mp hp with rfl | hp
            · exact le_rfl
            · exact le_trans (by omega) (hmin p hp)
          · intro i j
            rw [List.mem_cons]
            constructor
            · rintro (heq | hmemt)
              · injection heq with he1 he2
                subst he1
                subst he2
                exact ⟨0, dd, rfl, by omega, hrow⟩
              · obtain ⟨k, dd2, hget, hik, hrow2⟩ := (hmem i j).mp hmemt
                exact ⟨k + 1, dd2, hget, by omega, hrow2⟩
            · rintro ⟨k, dd2, hget, hik, hrow2⟩
              cases k with
              | zero =>
                injection hget with hget
                subst hget
                rw [hrow] at hrow2
                injection hrow2 with hrow2
                injection hrow2 with hrow2
                left
                subst hrow2
                have : i = i0 := by omega
                subst this
                rfl
              | succ k2 =>
                right
                exact (hmem i j).mpr ⟨k2, dd2, hget, by omega, hrow2⟩

/-- Claim C6: on any successful matcher run (with at least two rows in
`descriptors2`), the output pairs are strictly ascending in `i` (hence at
most one match per `i`); every emitted `(i, j)` points at a row of
`descriptors2` whose angular distance to row `i` is the smallest one; and
row `i` emits a match precisely when the smallest distance divided by the
second-smallest distance is at most the threshold. -/
theorem findBestMatches_ratio_test_spec (ac : ℚ → ℚ) (d1 d2 : List Desc) (t : ℚ)
    (out : List (Nat × Nat))
    (hs : FindBestMatches ac d1 d2 t = some out) (h2 : 2 ≤ d2.length) :
    List.Pairwise (fun a b => a.1 < b.1) out ∧
    (∀ i j, (i, j) ∈ out → j < d2.length ∧
      (∀ j2, j2 < d2.length → rowDist ac d1 d2 i j ≤ rowDist ac d1 d2 i j2) ∧
      rowDist ac d1 d2 i j = (sortedDists ac (d1.getD i []) d2).getD 0 0) ∧
    (∀ i, i < d1.length →
      ((∃ j, (i, j) ∈ out) ↔
        (sortedDists ac (d1.getD i []) d2).getD 0 0 /
          (sortedDists ac (d1.getD i []) d2).getD 1 0 ≤ t)) := by
  obtain ⟨hP, -, hsucc, hmem⟩ := fbmGo_spec ac d2 t d1 0 out hs
  refine ⟨hP, ?_, ?_⟩
  · intro i j hij
    obtain ⟨k, dd, hget, hik, hrow⟩ := (hmem i j).mp hij
    have hk : k = i := by omega
    subst hk
    have hdd : d1.getD k [] = dd := by
      rw [List.getD_eq_getD_get?, hget]
      rfl
    obtain ⟨j0, hj0len, hj0dist, hmin2, hr⟩ := bestMatchRow_spec ac d2 t dd (some j) hrow
    have hjj0 : j = j0 := by
      split at hr
      · exact Option.some.inj hr
      · cases hr
    subst hjj0
    refine ⟨hj0len, ?_, ?_⟩
    · intro j2 hj2
      unfold rowDist
      rw [hdd, hj0dist]
      exact hmin2 j2 hj2
    · unfold rowDist
      rw [hdd, hj0dist]
  · intro i hi
    have hget : d1.get? i = some (d1.getD i []) := by
      have hg := List.get?_eq_get hi
      rw [hg, List.getD_eq_get]
    obtain ⟨r, hrow⟩ := hsucc i (d1.getD i []) hget
    obtain ⟨j0, hj0len, hj0dist, hmin2, hr⟩ :=
      bestMatchRow_spec ac d2 t (d1.getD i []) r hrow
    constructor
    · rintro ⟨j, hj⟩
      obtain ⟨k, dd, hget2, hik, hrow2⟩ := (hmem i j).mp hj
      have hk : k = i := by omega
      subst hk
      rw [hget] at hget2
      injection hget2 with he
      subst he
      rw [hrow] at hrow2
      injection hrow2 with he2
      rw [he2] at hr
      split at hr
      · rename_i hc
        exact hc
      · cases hr
    · intro hc
      rw [if_pos hc] at hr
      refine ⟨j0, (hmem i j0).mpr ⟨i, d1.getD i [], hget, by omega, ?_⟩⟩
      rw [hrow, hr]

/-- Claim C6 witness: one probe descriptor against two descriptors at
distances 0 and 1 under the stand-in acos, threshold 1/2. -/
theorem findBestMatches_ratio_test_spec_witness :
    List.Pairwise (fun a b : Nat × Nat => a.1 < b.1) [(0, 0)] ∧
    (∀ i j, (i, j) ∈ ([(0, 0)] : List (Nat × Nat)) →
      j < ([[1, 0], [0, 1]] : List Desc).length ∧
      (∀ j2, j2 < ([[1, 0], [0, 1]] : List Desc).length →
        rowDist acLin [[1, 0]] [[1, 0], [0, 1]] i j ≤
          rowDist acLin [[1, 0]] [[1, 0], [0, 1]] i j2) ∧
      rowDist acLin [[1, 0]] [[1, 0], [0, 1]] i j =
        (sortedDists acLin (([[1, 0]] : List Desc).getD i []) [[1, 0], [0, 1]]).getD 0 0) ∧
    (∀ i, i < ([[1, 0]] : List Desc).length →
      ((∃ j, (i, j) ∈ ([(0, 0)] : List (Nat × Nat))) ↔
        (sortedDists acLin (([[1, 0]] : List Desc).getD i []) [[1, 0], [0, 1]]).getD 0 0 /
          (sortedDists acLin (([[1, 0]] : List Desc).getD i []) [[1, 0], [0, 1]]).getD 1 0 ≤
          1 / 2)) :=
  findBestMatches_ratio_test_spec acLin [[1, 0]] [[1, 0], [0, 1]] (1 / 2) [(0, 0)]
    (by decide) (by decide)
